import Mathlib

/-!
Verification development for the conversational task-command agent of the
todo application: the MCP task store (`storage.ts`), the tool layer
(`tools.ts`), the conversation memory and session manager (`memory.ts`),
and the agent orchestrator (`todo-agent.ts`).

Modelling conventions:
* Timestamps and due dates are epoch milliseconds as `Nat`.  In the source
  they are ISO 8601 strings that only ever flow through
  `new Date(s).getTime()` and the day-truncating constructor
  `new Date(getFullYear(), getMonth(), getDate())`; we represent a date
  string by its parsed epoch value and truncation by flooring to a
  multiple of the day length.
* A JavaScript `Map` is an association list in insertion order:
  `set` overwrites in place when the key is present (keeping its
  position) and appends otherwise; iteration yields values in insertion
  order.
* Runtime values of `priority` / `status` are plain strings (TypeScript
  enum types are erased); the Zod schemas check membership at runtime,
  which is what the validation functions below model.
* File persistence (`persistTask`, `fs`) is I/O outside the state we
  model; the in-memory `tasksMap` is the authoritative state the queries
  read.
* `Array.prototype.sort` (TimSort) is modelled as a stable merge sort
  driven by the same comparator, written with explicit fuel so that it
  reduces by kernel evaluation.
-/

namespace TodoApp

/-! ## Time -/

/-- Milliseconds in one day: the granularity of
`new Date(getFullYear(), getMonth(), getDate())`. -/
def dayMs : Nat := 86400000

/-- Local-midnight truncation of an epoch timestamp, the model of
`new Date(d.getFullYear(), d.getMonth(), d.getDate())`. -/
def dayStart (t : Nat) : Nat := (t / dayMs) * dayMs

/-! ## JavaScript `Map` as an insertion-ordered association list -/

/-- `Map.get`: value of the first (in a real `Map`, unique) entry with the key. -/
def mapGet {α : Type} : List (String × α) → String → Option α
  | [], _ => none
  | (k', v) :: t, k => if k' = k then some v else mapGet t k

/-- `Map.set`: overwrite in place when present (keeping insertion
position), append otherwise. -/
def mapSet {α : Type} : List (String × α) → String → α → List (String × α)
  | [], k, v => [(k, v)]
  | (k', v') :: t, k, v => if k' = k then (k, v) :: t else (k', v') :: mapSet t k v

/-- `Map.delete`. -/
def mapDelete {α : Type} (m : List (String × α)) (k : String) : List (String × α) :=
  m.filter (fun kv => kv.1 ≠ k)

/-- `Map.has`. -/
def mapHas {α : Type} (m : List (String × α)) (k : String) : Bool :=
  (mapGet m k).isSome

/-- `Array.from(map.values())`: values in insertion order. -/
def mapValues {α : Type} (m : List (String × α)) : List α :=
  m.map Prod.snd

/-- `Array.from(map.keys())`. -/
def mapKeys {α : Type} (m : List (String × α)) : List String :=
  m.map Prod.fst

/-- `list.slice(-n)` for `n > 0` (also used for the `slice(-max)` eviction
in memory): the last `n` elements, all of them when fewer. -/
def takeLast {α : Type} (n : Nat) (l : List α) : List α :=
  l.drop (l.length - n)

/-! ## Data model (`schema.ts`) -/

/-- The stored `Task` record (`TaskSchema`).  `due_date` is the parsed
epoch value of the optional ISO string; `priority` and `status` are the
runtime strings the Zod enums validate. -/
structure Task where
  id : String
  title : String
  description : Option String
  due_date : Option Nat
  priority : String
  status : String
  created_at : Nat
  updated_at : Nat
  user_id : String
  tags : List String
deriving Repr, DecidableEq

/-- `TaskPrioritySchema`: membership of `z.enum(['low','medium','high'])`. -/
def validPriority (p : String) : Bool :=
  p = "low" || p = "medium" || p = "high"

/-- `TaskStatusSchema`: membership of `z.enum(['pending','completed'])`. -/
def validStatus (s : String) : Bool :=
  s = "pending" || s = "completed"

/-- Length check of an optional string field (`z.string().max(2000).optional()`). -/
def descTooLong : Option String → Bool
  | some d => decide (d.length > 2000)
  | none => false

/-- An optional field fails a membership check (absent fields pass). -/
def optBad (valid : String → Bool) : Option String → Bool
  | some v => !(valid v)
  | none => false

/-- `TaskSchema.parse` on an already-constructed record: the checks that
can fail at runtime are the title length bounds (`min(1).max(200)`), the
description bound (`max(2000)`) and the two enum memberships.  The `id`
field of every stored task is produced by `randomUUID()`, which always
satisfies `z.string().uuid()`, so that check is not modelled as failing. -/
def taskSchemaParse (t : Task) : Except String Task :=
  if t.title.length < 1 then .error "title: too short"
  else if t.title.length > 200 then .error "title: too long"
  else if descTooLong t.description then .error "description: too long"
  else if !(validPriority t.priority) then .error "priority: invalid enum value"
  else if !(validStatus t.status) then .error "status: invalid enum value"
  else .ok t

/-- `CreateTaskPayload` after `CreateTaskPayloadSchema.parse`:
`priority` is constrained to the enum by the schema, but we keep the
runtime string so that un-validated payloads (e.g. an out-of-range
priority reaching `MCPStorage.createTask` directly) are expressible. -/
structure CreateTaskPayload where
  title : String
  description : Option String := none
  due_date : Option Nat := none
  priority : Option String := none
  tags : Option (List String) := none
deriving Repr, DecidableEq

/-- `CreateTaskPayloadSchema.parse`. -/
def createPayloadParse (p : CreateTaskPayload) : Except String CreateTaskPayload :=
  if p.title.length < 1 then .error "title: too short"
  else if p.title.length > 200 then .error "title: too long"
  else if descTooLong p.description then .error "description: too long"
  else if optBad validPriority p.priority then .error "priority: invalid enum value"
  else .ok p

/-- `UpdateTaskPayload` (all fields optional; an absent field is not
spread over the existing task). -/
structure UpdateTaskPayload where
  title : Option String := none
  description : Option String := none
  due_date : Option Nat := none
  priority : Option String := none
  status : Option String := none
  tags : Option (List String) := none
deriving Repr, DecidableEq

/-- `UpdateTaskPayloadSchema.parse`. -/
def updatePayloadParse (p : UpdateTaskPayload) : Except String UpdateTaskPayload :=
  if (match p.title with
      | some t => decide (t.length < 1) || decide (t.length > 200)
      | none => false) then .error "title: invalid length"
  else if descTooLong p.description then .error "description: too long"
  else if optBad validPriority p.priority then .error "priority: invalid enum value"
  else if optBad validStatus p.status then .error "status: invalid enum value"
  else .ok p

/-- `ListTasksFilter` (`ListTasksFilterSchema`).  `due_date` is part of
the schema but never read by `listTasks`; `range` is kept as the runtime
string the switch statement inspects. -/
structure ListTasksFilter where
  status : Option String := none
  priority : Option String := none
  due_date : Option Nat := none
  range : Option String := none
  search : Option String := none
deriving Repr, DecidableEq

/-! ## `Array.prototype.sort` with a comparator

TimSort is a stable comparison sort; we model it as a stable merge sort.
An element `a` stays before `b` exactly when the comparator returns a
value `≤ 0` on `(a, b)`.  Fuel makes the recursion structural so concrete
calls reduce inside the kernel. -/

/-- Stable merge of two runs under a JS comparator (fuelled). -/
def jsMergeFuel {α : Type} (cmp : α → α → Int) : Nat → List α → List α → List α
  | 0, xs, ys => xs ++ ys
  | _ + 1, [], ys => ys
  | _ + 1, x :: xs, [] => x :: xs
  | fuel + 1, x :: xs, y :: ys =>
    if cmp x y ≤ 0 then x :: jsMergeFuel cmp fuel xs (y :: ys)
    else y :: jsMergeFuel cmp fuel (x :: xs) ys

/-- Stable merge of two runs (fuel chosen large enough). -/
def jsMerge {α : Type} (cmp : α → α → Int) (xs ys : List α) : List α :=
  jsMergeFuel cmp (xs.length + ys.length) xs ys

/-- Stable merge sort (fuelled). -/
def jsSortFuel {α : Type} (cmp : α → α → Int) : Nat → List α → List α
  | 0, l => l
  | fuel + 1, l =>
    if l.length ≤ 1 then l
    else
      let n := l.length / 2
      jsMerge cmp (jsSortFuel cmp fuel (l.take n)) (jsSortFuel cmp fuel (l.drop n))

/-- `array.sort(cmp)` as a stable merge sort. -/
def jsSort {α : Type} (cmp : α → α → Int) (l : List α) : List α :=
  jsSortFuel cmp l.length l

/-! ## Task store (`MCPStorage`, `storage.ts`) -/

/-- The in-memory state of `MCPStorage`: the `tasksMap` cache keyed by
task id (disk persistence mirrors it and is not part of the state). -/
structure MCPStorage where
  tasksMap : List (String × Task) := []
deriving Repr, DecidableEq

/-- `MCPStorage.createTask`.  The non-deterministic inputs of the source
(`randomUUID()` and `new Date()`) are passed in as `newId` and `now`; a
schema violation, which the source raises as a `ZodError`, is the
`Except.error` case and leaves the store unchanged. -/
def createTask (st : MCPStorage) (userId : String) (payload : CreateTaskPayload)
    (newId : String) (now : Nat) : Except String (Task × MCPStorage) :=
  let task : Task :=
    { id := newId
      title := payload.title
      description := payload.description
      due_date := payload.due_date
      priority := payload.priority.getD "medium"
      status := "pending"
      created_at := now
      updated_at := now
      user_id := userId
      tags := payload.tags.getD [] }
  match taskSchemaParse task with
  | .error e => .error e
  | .ok validated => .ok (validated, { tasksMap := mapSet st.tasksMap validated.id validated })

/-- `MCPStorage.getTask`: `this.tasksMap.get(taskId) || null` — a lookup
by id only, with no owner parameter. -/
def getTask (st : MCPStorage) (taskId : String) : Option Task :=
  mapGet st.tasksMap taskId

/-- The spread `{...existing, ...updates}` of `MCPStorage.updateTask`:
fields present in the parsed update payload override, absent ones keep
the existing value. -/
def applyUpdates (existing : Task) (u : UpdateTaskPayload) (now : Nat) : Task :=
  { existing with
    title := u.title.getD existing.title
    description := (u.description.map some).getD existing.description
    due_date := (u.due_date.map some).getD existing.due_date
    priority := u.priority.getD existing.priority
    status := u.status.getD existing.status
    tags := u.tags.getD existing.tags
    updated_at := now }

/-- `MCPStorage.updateTask`: throws (here `Except.error`) when the id is
absent, otherwise merges, re-validates the merged record and overwrites
the map entry. -/
def updateTask (st : MCPStorage) (taskId : String) (updates : UpdateTaskPayload)
    (now : Nat) : Except String (Task × MCPStorage) :=
  match mapGet st.tasksMap taskId with
  | none => .error ("Task " ++ taskId ++ " not found")
  | some existing =>
    match taskSchemaParse (applyUpdates existing updates now) with
    | .error e => .error e
    | .ok validated => .ok (validated, { tasksMap := mapSet st.tasksMap taskId validated })

/-- `MCPStorage.completeTask`: `updateTask(taskId, { status: 'completed' })`. -/
def completeTask (st : MCPStorage) (taskId : String) (now : Nat) :
    Except String (Task × MCPStorage) :=
  updateTask st taskId { status := some "completed" } now

/-- `MCPStorage.deleteTask`: throws when the id is absent, otherwise
removes the entry (the disk unlink is I/O outside the modelled state). -/
def deleteTask (st : MCPStorage) (taskId : String) : Except String MCPStorage :=
  if mapHas st.tasksMap taskId then .ok { tasksMap := mapDelete st.tasksMap taskId }
  else .error ("Task " ++ taskId ++ " not found")

/-- `priorityOrder` lookup of the sort comparator
(`{ high: 3, medium: 2, low: 1 }`); an out-of-table priority cannot occur
on a stored (validated) task, and is given the neutral value 0. -/
def priorityOrder (p : String) : Int :=
  if p = "high" then 3 else if p = "medium" then 2 else if p = "low" then 1 else 0

/-- The comparator of `listTasks`: due dates ascending when both tasks
have one, otherwise priority descending — note that a dated and an
undated task fall into the priority branch. -/
def cmpTask (a b : Task) : Int :=
  match a.due_date, b.due_date with
  | some da, some db => (da : Int) - (db : Int)
  | _, _ => priorityOrder b.priority - priorityOrder a.priority

/-- Case-insensitive substring test over char lists (`String.includes`
after `toLowerCase`), prefix step. -/
def charsStartWith : List Char → List Char → Bool
  | [], _ => true
  | _ :: _, [] => false
  | a :: as, b :: bs => a = b && charsStartWith as bs

/-- Substring occurrence test over char lists. -/
def charsHaveSub (sub : List Char) : List Char → Bool
  | [] => sub.isEmpty
  | l@(_ :: t) => charsStartWith sub l || charsHaveSub sub t

/-- `haystack.toLowerCase().includes(needle.toLowerCase())`. -/
def strHasSub (haystack needle : String) : Bool :=
  charsHaveSub needle.toLower.toList haystack.toLower.toList

/-- The free-text search predicate of `listTasks`: case-insensitive
substring match over the title or the (optional) description. -/
def searchMatch (task : Task) (q : String) : Bool :=
  strHasSub task.title q ||
    (match task.description with
     | some d => strHasSub d q
     | none => false)

/-- The `filter.range` callback of `listTasks`.  A task without a
`due_date` matches only the range `'all'`; otherwise the due date is
truncated to its calendar day and compared with today's truncation.  A
range string outside the five cases yields `undefined` in the source,
which `Array.filter` treats as falsy. -/
def rangeKeep (range : String) (today : Nat) (task : Task) : Bool :=
  match task.due_date with
  | none => range = "all"
  | some due =>
    let dueDay := dayStart due
    if range = "today" then decide (dueDay = today) && task.status = "pending"
    else if range = "upcoming" then decide (dueDay > today) && task.status = "pending"
    else if range = "overdue" then decide (dueDay < today) && task.status = "pending"
    else if range = "completed" then task.status = "completed"
    else if range = "all" then true
    else false

/-- A truthiness guard: `if (filter.x)` skips the filter both for an
absent field and for the empty string (falsy in JS). -/
def optFilter (l : List Task) (field : Option String) (keep : String → Task → Bool) :
    List Task :=
  match field with
  | none => l
  | some s => if s = "" then l else l.filter (keep s)

/-- The filtering stage of `MCPStorage.listTasks`: owner scoping followed
by the four optional filters, before the final sort. -/
def listTasksFiltered (st : MCPStorage) (userId : String) (filter : ListTasksFilter)
    (now : Nat) : List Task :=
  let today := dayStart now
  let r0 := (mapValues st.tasksMap).filter (fun t => t.user_id = userId)
  let r1 := optFilter r0 filter.status (fun s t => t.status = s)
  let r2 := optFilter r1 filter.priority (fun p t => t.priority = p)
  let r3 := optFilter r2 filter.search (fun q t => searchMatch t q)
  optFilter r3 filter.range (fun rg t => rangeKeep rg today t)

/-- `MCPStorage.listTasks`: the filtering stage, then the comparator
sort.  `now` models `new Date()`. -/
def listTasks (st : MCPStorage) (userId : String) (filter : ListTasksFilter)
    (now : Nat) : List Task :=
  jsSort cmpTask (listTasksFiltered st userId filter now)

/-- The record returned by `MCPStorage.getTaskStats`. -/
structure TaskStats where
  total : Nat
  pending : Nat
  completed : Nat
  overdue : Nat
deriving Repr, DecidableEq

/-- `MCPStorage.getTaskStats`: derived from `listTasks(userId, {range:
'all'})`; `overdue` compares the raw due-date timestamp (not its day
truncation) against today's midnight over pending tasks. -/
def getTaskStats (st : MCPStorage) (userId : String) (now : Nat) : TaskStats :=
  let tasks := listTasks st userId { range := some "all" } now
  let today := dayStart now
  let pending := tasks.filter (fun t => t.status = "pending")
  let overdue := pending.filter (fun t =>
    match t.due_date with
    | some d => decide (d < today)
    | none => false)
  { total := tasks.length
    pending := pending.length
    completed := (tasks.filter (fun t => t.status = "completed")).length
    overdue := overdue.length }

/-! ## Tool layer (`createAgentTools`, `tools.ts`)

Each `execute` builds the uniform result envelope `{success, message,
error, task_id, task, tasks, stats}`.  The `try { ... } catch` in the
source converts storage errors into `{success: false, error}`; code that
runs *outside* the `try` (the payload-schema `parse` calls) can throw,
which the `thrown` constructor records. -/

/-- The untyped JS result object of a tool, with every field optional. -/
structure ToolEnvelope where
  success : Bool
  message : Option String := none
  error : Option String := none
  task_id : Option String := none
  task : Option Task := none
  tasks : Option (List Task) := none
  stats : Option TaskStats := none
deriving Repr, DecidableEq

/-- Outcome of calling an `execute` function: either a returned value or
an exception escaping it. -/
inductive ExecOutcome (α : Type) where
  | thrown (e : String)
  | returned (v : α)
deriving Repr, DecidableEq

/-- Raw parameters of the `create_task` tool: its `parameters` schema
declares `title: z.string()` with *no* length bound, so an empty title
reaches `execute`. -/
structure CreateToolParams where
  title : String
  description : Option String := none
  due_date : Option Nat := none
  priority : Option String := none
  tags : Option (List String) := none
deriving Repr, DecidableEq

/-- `create_task.execute`: resolves the ambient owner from the calling
context (`context?.userId || 'default-user'`), then runs
`CreateTaskPayloadSchema.parse(params)` *outside* the `try` block —
a parse failure therefore escapes as a thrown `ZodError` — and only the
storage call is guarded by `try/catch`. -/
def create_task_exec (storage : MCPStorage) (ctxUserId : Option String)
    (params : CreateToolParams) (newId : String) (now : Nat) :
    ExecOutcome (ToolEnvelope × MCPStorage) :=
  let userId := ctxUserId.getD "default-user"
  match createPayloadParse
      { title := params.title, description := params.description,
        due_date := params.due_date, priority := params.priority,
        tags := params.tags } with
  | .error e => .thrown e
  | .ok payload =>
    match createTask storage userId payload newId now with
    | .ok (task, st') =>
      .returned
        ({ success := true
           message := some ("Created task: \"" ++ task.title ++ "\"" ++
             (match task.due_date with
              | some d => " (due " ++ toString d ++ ")"
              | none => ""))
           task_id := some task.id
           task := some task }, st')
    | .error e =>
      .returned ({ success := false, error := some ("Failed to create task: " ++ e) }, storage)

/-- Raw parameters of the `update_task` tool (`task_id` plus the
optional fields; the tool's schema has no `status` field). -/
structure UpdateToolParams where
  task_id : String
  title : Option String := none
  description : Option String := none
  due_date : Option Nat := none
  priority : Option String := none
  tags : Option (List String) := none
deriving Repr, DecidableEq

/-- `update_task.execute`: destructures `task_id` away, runs
`UpdateTaskPayloadSchema.parse(updates)` outside the `try`, then calls
`storage.updateTask(task_id, payload)` — with no owner check — inside it.
The calling context is bound but never read. -/
def update_task_exec (storage : MCPStorage) (_ctxUserId : Option String)
    (params : UpdateToolParams) (now : Nat) : ExecOutcome (ToolEnvelope × MCPStorage) :=
  match updatePayloadParse
      { title := params.title, description := params.description,
        due_date := params.due_date, priority := params.priority,
        tags := params.tags } with
  | .error e => .thrown e
  | .ok payload =>
    match updateTask storage params.task_id payload now with
    | .ok (task, st') =>
      .returned
        ({ success := true
           message := some ("Updated task: \"" ++ task.title ++ "\"")
           task_id := some task.id
           task := some task }, st')
    | .error e =>
      .returned ({ success := false, error := some ("Failed to update task: " ++ e) }, storage)

/-- `complete_task.execute`: everything inside the `try`; no owner check. -/
def complete_task_exec (storage : MCPStorage) (_ctxUserId : Option String)
    (taskId : String) (now : Nat) : ExecOutcome (ToolEnvelope × MCPStorage) :=
  match completeTask storage taskId now with
  | .ok (task, st') =>
    .returned
      ({ success := true
         message := some ("Completed task: \"" ++ task.title ++ "\" ✓")
         task_id := some task.id
         task := some task }, st')
  | .error e =>
    .returned ({ success := false, error := some ("Failed to complete task: " ++ e) }, storage)

/-- `delete_task.execute`: fetches the task by id for the confirmation
message, then deletes it — both by id only, with no owner check. -/
def delete_task_exec (storage : MCPStorage) (_ctxUserId : Option String)
    (taskId : String) : ExecOutcome (ToolEnvelope × MCPStorage) :=
  match getTask storage taskId with
  | none => .returned ({ success := false, error := some "Task not found" }, storage)
  | some task =>
    match deleteTask storage taskId with
    | .ok st' =>
      .returned
        ({ success := true
           message := some ("Deleted task: \"" ++ task.title ++ "\"")
           task_id := some taskId }, st')
    | .error e =>
      .returned ({ success := false, error := some ("Failed to delete task: " ++ e) }, storage)

/-- `get_task.execute`: `storage.getTask(params.task_id)` with no owner
check; a missing id becomes a `{success:false}` envelope. -/
def get_task_exec (storage : MCPStorage) (_ctxUserId : Option String)
    (taskId : String) : ExecOutcome (ToolEnvelope × MCPStorage) :=
  match getTask storage taskId with
  | none => .returned ({ success := false, error := some "Task not found" }, storage)
  | some task => .returned ({ success := true, task := some task }, storage)

/-- Raw parameters of the `list_tasks` tool (all enum fields as runtime
strings, as they arrive from the model). -/
structure ListToolParams where
  range : Option String := none
  status : Option String := none
  priority : Option String := none
  search : Option String := none
deriving Repr, DecidableEq

/-- `ListTasksFilterSchema.parse` on the raw tool parameters. -/
def listFilterParse (p : ListToolParams) : Except String ListTasksFilter :=
  if optBad validStatus p.status then .error "status: invalid enum value"
  else if optBad validPriority p.priority then .error "priority: invalid enum value"
  else if (match p.range with
           | some r => !(r = "today" || r = "upcoming" || r = "overdue" ||
               r = "completed" || r = "all")
           | none => false) then .error "range: invalid enum value"
  else .ok { status := p.status, priority := p.priority, range := p.range,
             search := p.search }

/-- `list_tasks.execute`: owner from the ambient context, the filter
parse outside the `try`, then `listTasks` and `getTaskStats` inside it. -/
def list_tasks_exec (storage : MCPStorage) (ctxUserId : Option String)
    (params : ListToolParams) (now : Nat) : ExecOutcome (ToolEnvelope × MCPStorage) :=
  let userId := ctxUserId.getD "default-user"
  match listFilterParse params with
  | .error e => .thrown e
  | .ok filter =>
    let tasks := listTasks storage userId filter now
    let stats := getTaskStats storage userId now
    if tasks.length = 0 then
      .returned
        ({ success := true
           message := some "No tasks found matching your criteria"
           tasks := some []
           stats := some stats }, storage)
    else
      .returned
        ({ success := true
           message := some ("Found " ++ toString tasks.length ++ " task(s)")
           tasks := some tasks
           stats := some stats }, storage)

/-! ## Conversation memory (`memory.ts`) -/

/-- One conversation turn (`ConversationMessage`). -/
structure ConversationMessage where
  role : String
  content : String
  timestamp : Nat
deriving Repr, DecidableEq

/-- A remembered task mention (`TaskReference`). -/
structure TaskReference where
  task_id : String
  task : Task
  context : String
  mentioned_at : Nat
deriving Repr, DecidableEq

/-- The `maxMessages` cap of `ConversationMemory`: a private constant 50,
never reassigned. -/
def maxMessages : Nat := 50

/-- State of a `ConversationMemory`: the message log and the
`referencedTasks` map (a JS `Map` keyed by task id, in insertion order). -/
structure ConversationMemory where
  userId : String
  sessionId : String
  messages : List ConversationMessage := []
  referencedTasks : List (String × TaskReference) := []
deriving Repr, DecidableEq

/-- The constructor `new ConversationMemory(userId, sessionId)`. -/
def newMemory (userId sessionId : String) : ConversationMemory :=
  { userId := userId, sessionId := sessionId }

/-- `ConversationMemory.addMessage`: append, then
`messages.slice(-maxMessages)` when the length exceeds the cap. -/
def addMessage (mem : ConversationMemory) (role content : String) (now : Nat) :
    ConversationMemory :=
  let msgs := mem.messages ++ [{ role := role, content := content, timestamp := now }]
  { mem with
    messages := if msgs.length > maxMessages then takeLast maxMessages msgs else msgs }

/-- `ConversationMemory.recordTaskReference`: a `Map.set` upsert — an
existing id keeps its insertion position, only its stored reference
(including `mentioned_at`) is replaced. -/
def recordTaskReference (mem : ConversationMemory) (taskId : String) (task : Task)
    (context : String) (now : Nat) : ConversationMemory :=
  { mem with
    referencedTasks := mapSet mem.referencedTasks taskId
      { task_id := taskId, task := task, context := context, mentioned_at := now } }

/-- `ConversationMemory.pruneOldReferences`: drop references whose age
exceeds `maxAgeMs`. -/
def pruneOldReferences (mem : ConversationMemory) (now : Nat)
    (maxAgeMs : Nat := 30 * 60 * 1000) : ConversationMemory :=
  { mem with
    referencedTasks := mem.referencedTasks.filter
      (fun kv => !(decide (now - kv.2.mentioned_at > maxAgeMs))) }

/-- The `messages.slice(-10)` read by `getContextForAgent`. -/
def recentMessages (mem : ConversationMemory) : List ConversationMessage :=
  takeLast 10 mem.messages

/-- The `Array.from(referencedTasks.values()).slice(-5)` read by
`getContextForAgent`: the last five references in map *insertion* order,
not by `mentioned_at`. -/
def recentRefs (mem : ConversationMemory) : List TaskReference :=
  takeLast 5 (mapValues mem.referencedTasks)

/-- `ConversationMemory.getContextForAgent`: the rendered prompt block. -/
def getContextForAgent (mem : ConversationMemory) : String :=
  let part1 :=
    if mem.messages.length > 0 then
      "Recent conversation:\n" ++
        String.join ((recentMessages mem).map
          (fun m => m.role.toUpper ++ ": " ++ m.content ++ "\n"))
    else ""
  let part2 :=
    if mem.referencedTasks.length > 0 then
      "\nRecently mentioned tasks:\n" ++
        String.join ((recentRefs mem).map
          (fun r => "- \"" ++ r.task.title ++ "\" (" ++ r.context ++ ")\n"))
    else ""
  part1 ++ part2

/-! ## Session manager (`ConversationSessionManager`, `memory.ts`) -/

/-- The session registry: a JS `Map` keyed by `userId:sessionId`. -/
structure ConversationSessionManager where
  sessions : List (String × ConversationMemory) := []
deriving Repr, DecidableEq

/-- The registry key `` `${userId}:${sessionId}` ``. -/
def sessionKey (userId sessionId : String) : String :=
  userId ++ ":" ++ sessionId

/-- `ConversationSessionManager.getSession`: get-or-create, no eviction. -/
def getSession (mgr : ConversationSessionManager) (userId sessionId : String) :
    ConversationMemory × ConversationSessionManager :=
  let key := sessionKey userId sessionId
  match mapGet mgr.sessions key with
  | some m => (m, mgr)
  | none =>
    let m := newMemory userId sessionId
    (m, { sessions := mapSet mgr.sessions key m })

/-- `ConversationSessionManager.endSession`. -/
def endSession (mgr : ConversationSessionManager) (userId sessionId : String) :
    ConversationSessionManager :=
  { sessions := mapDelete mgr.sessions (sessionKey userId sessionId) }

/-- `ConversationSessionManager.cleanupOldSessions`: when more than 100
sessions are live, delete the first 50 keys in insertion order (the
`maxAgeMs` parameter is accepted but never used).  No caller in the
repository ever invokes this method. -/
def cleanupOldSessions (mgr : ConversationSessionManager) :
    ConversationSessionManager :=
  if mgr.sessions.length > 100 then
    { sessions := ((mapKeys mgr.sessions).take 50).foldl mapDelete mgr.sessions }
  else mgr

/-- One operation of the session-registry interface exercised by the
routes (`getSession` on every message, `endSession` on session end). -/
inductive SessionOp where
  | get (userId sessionId : String)
  | finish (userId sessionId : String)
deriving Repr, DecidableEq

/-- Apply a sequence of registry operations. -/
def applySessionOps (mgr : ConversationSessionManager) (ops : List SessionOp) :
    ConversationSessionManager :=
  ops.foldl
    (fun m op =>
      match op with
      | .get u s => (getSession m u s).2
      | .finish u s => endSession m u s)
    mgr

/-! ## Agent orchestrator (`TodoAgent.processMessage`, `todo-agent.ts`) -/

/-- One tool result as surfaced by the provider (`generateText`):
`toolName`, the raw `args` object and the raw `result`, both opaque JSON
here. -/
structure ProviderToolResult where
  toolName : String
  args : String
  result : String
deriving Repr, DecidableEq

/-- Outcome of the model-provider call: the generated text together with
the tool results of the run, or a thrown provider error. -/
inductive ProviderOutcome where
  | ok (text : String) (toolResults : List ProviderToolResult)
  | failed (message : String)
deriving Repr, DecidableEq

/-- One entry of `AgentResponse.tool_calls`. -/
structure ToolCallRecord where
  tool : String
  params : String
  result : String
deriving Repr, DecidableEq

/-- `AgentResponse`. -/
structure AgentResponse where
  message : String
  tool_calls : List ToolCallRecord
deriving Repr, DecidableEq

/-- `TodoAgent.processMessage`: appends the user message to memory,
builds the context, calls the provider (whose outcome, success or throw,
is the `provider` argument), and either appends the assistant text and
maps the tool results, or — in the `catch` branch — appends and returns
the generic failure message with an empty `tool_calls` list.  The
function is total: no exception escapes to the caller. -/
def processMessage (mem : ConversationMemory) (userMessage : String)
    (provider : ProviderOutcome) (now1 now2 : Nat) :
    AgentResponse × ConversationMemory :=
  let mem1 := addMessage mem "user" userMessage now1
  match provider with
  | .ok text results =>
    let mem2 := addMessage mem1 "assistant" text now2
    ({ message := text
       tool_calls := results.map
         (fun r => { tool := r.toolName, params := r.args, result := r.result }) },
     mem2)
  | .failed emsg =>
    let response := "I encountered an error processing your request: " ++ emsg
    let mem2 := addMessage mem1 "assistant" response now2
    ({ message := response, tool_calls := [] }, mem2)

/-! ## General lemmas about the embedded primitives -/

theorem takeLast_of_le {α : Type} {n : Nat} {l : List α} (h : l.length ≤ n) :
    takeLast n l = l := by
  unfold takeLast
  have hz : l.length - n = 0 := by omega
  simp [hz]

theorem length_takeLast {α : Type} (n : Nat) (l : List α) :
    (takeLast n l).length = min n l.length := by
  unfold takeLast
  simp [List.length_drop]
  omega

theorem takeLast_idem_append {α : Type} (n : Nat) (l : List α) (x : α) :
    takeLast n (takeLast n l ++ [x]) = takeLast n (l ++ [x]) := by
  unfold takeLast
  rcases Nat.eq_zero_or_pos n with hn | hn
  · subst hn
    simp [List.drop_length]
  · by_cases h : l.length ≤ n
    · have hz : l.length - n = 0 := by omega
      simp [hz]
    · push_neg at h
      have hlenA : (l.drop (l.length - n)).length = n := by
        simp [List.length_drop]; omega
      have h1 : (l.drop (l.length - n) ++ [x]).length - n = 1 := by
        simp [hlenA]
      rw [h1]
      have h2 : (l ++ [x]).length - n = (l.length - n) + 1 := by
        simp; omega
      rw [h2]
      rw [List.drop_append_of_le_length (by omega : 1 ≤ (l.drop (l.length - n)).length)]
      rw [List.drop_append_of_le_length (by omega : l.length - n + 1 ≤ l.length)]
      rw [List.drop_drop]

theorem takeLast_append_last {α : Type} {n : Nat} (hn : 1 ≤ n) (l : List α) (x : α) :
    takeLast n (l ++ [x]) = l.drop ((l.length + 1) - n) ++ [x] := by
  unfold takeLast
  have h : (l ++ [x]).length - n = (l.length + 1) - n := by simp
  rw [h]
  exact List.drop_append_of_le_length (by omega)

theorem mapGet_mapSet_self {α : Type} (m : List (String × α)) (k : String) (v : α) :
    mapGet (mapSet m k v) k = some v := by
  induction m with
  | nil => simp [mapSet, mapGet]
  | cons kv t ih =>
    obtain ⟨k', v'⟩ := kv
    by_cases h : k' = k
    · simp [mapSet, mapGet, h]
    · simp [mapSet, mapGet, h, ih]

theorem length_mapSet {α : Type} (m : List (String × α)) (k : String) (v : α) :
    (mapSet m k v).length = if mapHas m k then m.length else m.length + 1 := by
  induction m with
  | nil => simp [mapSet, mapHas, mapGet]
  | cons kv t ih =>
    obtain ⟨k', v'⟩ := kv
    by_cases h : k' = k
    · simp [mapSet, mapHas, mapGet, h]
    · simp only [mapSet, mapHas, mapGet, h, if_false, if_neg h, List.length_cons]
      simp only [mapHas] at ih
      rw [ih]
      split <;> simp

theorem mapKeys_mapSet_of_has {α : Type} (m : List (String × α)) (k : String) (v : α)
    (h : mapHas m k = true) : mapKeys (mapSet m k v) = mapKeys m := by
  induction m with
  | nil => simp [mapHas, mapGet] at h
  | cons kv t ih =>
    obtain ⟨k', v'⟩ := kv
    by_cases hk : k' = k
    · simp [mapSet, mapKeys, hk]
    · simp only [mapHas, mapGet, hk, if_neg hk] at h
      simp only [mapSet, if_neg hk, mapKeys, List.map_cons]
      rw [show (mapSet t k v).map Prod.fst = mapKeys (mapSet t k v) from rfl,
        ih (by simpa [mapHas] using h)]
      rfl

theorem foldl_mapDelete_take {α : Type} :
    ∀ (m : List (String × α)), (mapKeys m).Nodup →
      ∀ n, ((mapKeys m).take n).foldl mapDelete m = m.drop n := by
  intro m
  induction m with
  | nil => intro _ n; simp [mapKeys]
  | cons kv t ih =>
    intro hnd n
    obtain ⟨k, v⟩ := kv
    match n with
    | 0 => simp
    | n + 1 =>
      simp only [mapKeys, List.map_cons] at hnd ⊢
      rw [List.take_succ_cons, List.foldl_cons]
      have hdel : mapDelete ((k, v) :: t) k = t := by
        simp only [mapDelete, List.filter_cons]
        have hk : ¬ (k ≠ k) := by simp
        simp only [decide_not]
        rw [List.filter_eq_self.mpr]
        · simp
        · intro kv hkv
          have : kv.1 ≠ k := by
            intro he
            exact (List.nodup_cons.mp hnd).1 (he ▸ List.mem_map_of_mem Prod.fst hkv)
          simpa using this
      rw [hdel]
      have := ih (List.nodup_cons.mp hnd).2 n
      simpa [mapKeys] using this

/-! ## Lemmas about the stable sort -/

theorem jsMergeFuel_perm {α : Type} (cmp : α → α → Int) :
    ∀ (fuel : Nat) (xs ys : List α), xs.length + ys.length ≤ fuel →
      (jsMergeFuel cmp fuel xs ys).Perm (xs ++ ys) := by
  intro fuel
  induction fuel with
  | zero =>
    intro xs ys _
    simp [jsMergeFuel]
  | succ fuel ih =>
    intro xs ys h
    match xs, ys with
    | [], ys => simp [jsMergeFuel]
    | x :: xs, [] => simp [jsMergeFuel]
    | x :: xs, y :: ys =>
      simp only [jsMergeFuel]
      split
      · exact List.Perm.cons x (ih xs (y :: ys) (by simp at h ⊢; omega))
      · refine List.Perm.trans
          (List.Perm.cons y (ih (x :: xs) ys (by simp at h ⊢; omega))) ?_
        exact List.perm_middle.symm

theorem jsMerge_perm {α : Type} (cmp : α → α → Int) (xs ys : List α) :
    (jsMerge cmp xs ys).Perm (xs ++ ys) :=
  jsMergeFuel_perm cmp (xs.length + ys.length) xs ys (Nat.le_refl _)

theorem jsSortFuel_perm {α : Type} (cmp : α → α → Int) :
    ∀ (fuel : Nat) (l : List α), l.length ≤ fuel → (jsSortFuel cmp fuel l).Perm l := by
  intro fuel
  induction fuel with
  | zero => intro l _; simp [jsSortFuel]
  | succ fuel ih =>
    intro l h
    simp only [jsSortFuel]
    split
    · exact List.Perm.refl l
    · next hlen =>
      push_neg at hlen
      have h1 : (l.take (l.length / 2)).length ≤ fuel := by simp; omega
      have h2 : (l.drop (l.length / 2)).length ≤ fuel := by simp; omega
      refine List.Perm.trans (jsMerge_perm cmp _ _) ?_
      refine List.Perm.trans (List.Perm.append (ih _ h1) (ih _ h2)) ?_
      rw [List.take_append_drop]

theorem jsSort_perm {α : Type} (cmp : α → α → Int) (l : List α) :
    (jsSort cmp l).Perm l :=
  jsSortFuel_perm cmp l.length l (Nat.le_refl _)

theorem mem_jsSort {α : Type} (cmp : α → α → Int) (l : List α) (a : α) :
    a ∈ jsSort cmp l ↔ a ∈ l :=
  (jsSort_perm cmp l).mem_iff

theorem jsMergeFuel_sorted {α : Type} (cmp : α → α → Int) (k : α → Int) (S : α → Prop)
    (hS : ∀ a b, S a → S b → (cmp a b ≤ 0 ↔ k a ≤ k b)) :
    ∀ (fuel : Nat) (xs ys : List α), xs.length + ys.length ≤ fuel →
      (∀ x ∈ xs, S x) → (∀ y ∈ ys, S y) →
      xs.Pairwise (fun a b => k a ≤ k b) → ys.Pairwise (fun a b => k a ≤ k b) →
      (jsMergeFuel cmp fuel xs ys).Pairwise (fun a b => k a ≤ k b) := by
  intro fuel
  induction fuel with
  | zero =>
    intro xs ys h _ _ _ _
    have hx : xs = [] := List.length_eq_zero.mp (by omega)
    have hy : ys = [] := List.length_eq_zero.mp (by omega)
    subst hx; subst hy
    simp [jsMergeFuel]
  | succ fuel ih =>
    intro xs ys h hSx hSy hpx hpy
    match xs, ys with
    | [], ys => simpa [jsMergeFuel] using hpy
    | x :: xs, [] => simpa [jsMergeFuel] using hpx
    | x :: xs, y :: ys =>
      have hfu : xs.length + (y :: ys).length ≤ fuel := by simp at h ⊢; omega
      have hfu' : (x :: xs).length + ys.length ≤ fuel := by simp at h ⊢; omega
      simp only [jsMergeFuel]
      split
      · next hcmp =>
        rw [List.pairwise_cons]
        constructor
        · intro z hz
          have hz' : z ∈ xs ++ (y :: ys) := (jsMergeFuel_perm cmp fuel _ _ hfu).mem_iff.mp hz
          rcases List.mem_append.mp hz' with hz1 | hz2
          · exact (List.pairwise_cons.mp hpx).1 z hz1
          · have hxy : k x ≤ k y :=
              (hS x y (hSx x (by simp)) (hSy y (by simp))).mp hcmp
            rcases List.mem_cons.mp hz2 with rfl | hz3
            · exact hxy
            · exact le_trans hxy ((List.pairwise_cons.mp hpy).1 z hz3)
        · exact ih xs (y :: ys) hfu (fun a ha => hSx a (by simp [ha]))
            hSy (List.pairwise_cons.mp hpx).2 hpy
      · next hcmp =>
        have hyx : k y ≤ k x := by
          have := (hS x y (hSx x (by simp)) (hSy y (by simp)))
          by_contra hcon
          push_neg at hcon
          exact hcmp (this.mpr (le_of_lt hcon))
        rw [List.pairwise_cons]
        constructor
        · intro z hz
          have hz' : z ∈ (x :: xs) ++ ys := (jsMergeFuel_perm cmp fuel _ _ hfu').mem_iff.mp hz
          rcases List.mem_append.mp hz' with hz1 | hz2
          · rcases List.mem_cons.mp hz1 with rfl | hz3
            · exact hyx
            · exact le_trans hyx ((List.pairwise_cons.mp hpx).1 z hz3)
          · exact (List.pairwise_cons.mp hpy).1 z hz2
        · exact ih (x :: xs) ys hfu' hSx (fun a ha => hSy a (by simp [ha]))
            hpx (List.pairwise_cons.mp hpy).2

theorem jsSortFuel_sorted {α : Type} (cmp : α → α → Int) (k : α → Int) (S : α → Prop)
    (hS : ∀ a b, S a → S b → (cmp a b ≤ 0 ↔ k a ≤ k b)) :
    ∀ (fuel : Nat) (l : List α), l.length ≤ fuel → (∀ a ∈ l, S a) →
      (jsSortFuel cmp fuel l).Pairwise (fun a b => k a ≤ k b) := by
  intro fuel
  induction fuel with
  | zero =>
    intro l h _
    have : l = [] := List.length_eq_zero.mp (by omega)
    subst this
    simp [jsSortFuel]
  | succ fuel ih =>
    intro l h hSl
    simp only [jsSortFuel]
    split
    · next hlen =>
      match l, hlen with
      | [], _ => exact List.Pairwise.nil
      | [a], _ => simp
    · next hlen =>
      push_neg at hlen
      have h1 : (l.take (l.length / 2)).length ≤ fuel := by simp; omega
      have h2 : (l.drop (l.length / 2)).length ≤ fuel := by simp; omega
      have hs1 : ∀ a ∈ jsSortFuel cmp fuel (l.take (l.length / 2)), S a := by
        intro a ha
        exact hSl a (List.take_subset _ _ ((jsSortFuel_perm cmp fuel _ h1).mem_iff.mp ha))
      have hs2 : ∀ a ∈ jsSortFuel cmp fuel (l.drop (l.length / 2)), S a := by
        intro a ha
        exact hSl a (List.drop_subset _ _ ((jsSortFuel_perm cmp fuel _ h2).mem_iff.mp ha))
      exact jsMergeFuel_sorted cmp k S hS _ _ _ (Nat.le_refl _) hs1 hs2
        (ih _ h1 (fun a ha => hSl a (List.take_subset _ _ ha)))
        (ih _ h2 (fun a ha => hSl a (List.drop_subset _ _ ha)))

theorem jsSort_sorted_key {α : Type} (cmp : α → α → Int) (k : α → Int) (l : List α)
    (hS : ∀ a ∈ l, ∀ b ∈ l, (cmp a b ≤ 0 ↔ k a ≤ k b)) :
    (jsSort cmp l).Pairwise (fun a b => k a ≤ k b) :=
  jsSortFuel_sorted cmp k (fun a => a ∈ l) (fun a b ha hb => hS a ha b hb)
    l.length l (Nat.le_refl _) (fun _ ha => ha)

/-! ## Lemmas about the conversation memory -/

theorem addMessage_messages (mem : ConversationMemory) (role content : String) (now : Nat) :
    (addMessage mem role content now).messages =
      takeLast maxMessages
        (mem.messages ++ [{ role := role, content := content, timestamp := now }]) := by
  simp only [addMessage]
  split
  · rfl
  · next h => exact (takeLast_of_le (by omega)).symm

/-- The message record built from one `(role, content, timestamp)` call. -/
def mkMsg : String × String × Nat → ConversationMessage
  | (r, c, t) => { role := r, content := c, timestamp := t }

/-- A sequence of `addMessage` calls. -/
def addAll (mem : ConversationMemory) (entries : List (String × String × Nat)) :
    ConversationMemory :=
  entries.foldl (fun m e => addMessage m e.1 e.2.1 e.2.2) mem

theorem addAll_messages :
    ∀ (entries : List (String × String × Nat)) (mem : ConversationMemory)
      (acc : List ConversationMessage),
      mem.messages = takeLast maxMessages acc →
      (addAll mem entries).messages = takeLast maxMessages (acc ++ entries.map mkMsg) := by
  intro entries
  induction entries with
  | nil =>
    intro mem acc h
    simpa [addAll] using h
  | cons e es ih =>
    intro mem acc h
    obtain ⟨r, c, t⟩ := e
    have step : (addMessage mem r c t).messages
        = takeLast maxMessages (acc ++ [mkMsg (r, c, t)]) := by
      rw [addMessage_messages, h, takeLast_idem_append]
      rfl
    have : addAll mem ((r, c, t) :: es) = addAll (addMessage mem r c t) es := by
      simp [addAll]
    rw [this, ih (addMessage mem r c t) (acc ++ [mkMsg (r, c, t)]) step,
      List.append_assoc]
    rfl

/-! ## C7: bounded FIFO message history -/

/-- C7: starting from a fresh `ConversationMemory`, after any sequence of
`addMessage` calls the retained messages are exactly the most recently
added 50 in order, and the log never exceeds 50 entries; in particular,
adding 60 messages retains exactly messages 11 through 60. -/
theorem c7_message_cap_fifo (u s : String) (entries : List (String × String × Nat)) :
    (addAll (newMemory u s) entries).messages = takeLast 50 (entries.map mkMsg) ∧
    (addAll (newMemory u s) entries).messages.length ≤ 50 ∧
    (addAll (newMemory "u" "s")
        ((List.range 60).map (fun i => ("user", toString i, i)))).messages
      = ((List.range 60).map (fun i => mkMsg ("user", toString i, i))).drop 10 := by
  refine ⟨?_, ?_, ?_⟩
  · have h := addAll_messages entries (newMemory u s) [] (by simp [newMemory, takeLast])
    simpa [maxMessages] using h
  · have h := addAll_messages entries (newMemory u s) [] (by simp [newMemory, takeLast])
    rw [h]
    have := length_takeLast maxMessages ([] ++ entries.map mkMsg)
    simp [maxMessages] at this ⊢
    omega
  · have h := addAll_messages ((List.range 60).map (fun i => ("user", toString i, i)))
      (newMemory "u" "s") [] (by simp [newMemory, takeLast])
    rw [h]
    simp [maxMessages, takeLast, List.map_map]
    rfl

/-! ## C3: provider failure is caught -/

/-- C3: when the model-provider call fails, `processMessage` still
returns (the exception is caught: the embedding is a total function whose
`failed` branch is the `catch` block), the returned reply has an empty
`tool_calls` list and carries the generic failure text, and the session
memory afterwards ends with the user message followed by the appended
assistant failure message. -/
theorem c3_provider_failure_safe (mem : ConversationMemory) (userMessage emsg : String)
    (now1 now2 : Nat) :
    ((processMessage mem userMessage (.failed emsg) now1 now2).1).tool_calls = [] ∧
    ((processMessage mem userMessage (.failed emsg) now1 now2).1).message
      = "I encountered an error processing your request: " ++ emsg ∧
    ∃ pre, ((processMessage mem userMessage (.failed emsg) now1 now2).2).messages
      = pre ++ [{ role := "user", content := userMessage, timestamp := now1 },
                { role := "assistant",
                  content := "I encountered an error processing your request: " ++ emsg,
                  timestamp := now2 }] := by
  refine ⟨rfl, rfl, ?_⟩
  simp only [processMessage]
  set uMsg : ConversationMessage :=
    { role := "user", content := userMessage, timestamp := now1 } with huMsg
  set aMsg : ConversationMessage :=
    { role := "assistant",
      content := "I encountered an error processing your request: " ++ emsg,
      timestamp := now2 } with haMsg
  have h1 : (addMessage mem "user" userMessage now1).messages
      = mem.messages.drop ((mem.messages.length + 1) - maxMessages) ++ [uMsg] := by
    rw [addMessage_messages, takeLast_append_last (by simp [maxMessages])]
  set B : List ConversationMessage :=
    mem.messages.drop ((mem.messages.length + 1) - maxMessages) with hB
  have h2 : (addMessage (addMessage mem "user" userMessage now1) "assistant"
      ("I encountered an error processing your request: " ++ emsg) now2).messages
      = (B ++ [uMsg]).drop (((B ++ [uMsg]).length + 1) - maxMessages) ++ [aMsg] := by
    rw [addMessage_messages, h1, takeLast_append_last (by simp [maxMessages])]
  refine ⟨B.drop (((B ++ [uMsg]).length + 1) - maxMessages), ?_⟩
  rw [h2, List.drop_append_of_le_length (by simp [maxMessages])]
  simp

/-! ## C10: the two overdue computations agree -/

theorem dayStart_lt_iff (d now : Nat) : dayStart d < dayStart now ↔ d < dayStart now := by
  unfold dayStart
  have hpos : 0 < dayMs := by decide
  rw [Nat.mul_lt_mul_right hpos, Nat.div_lt_iff_lt_mul hpos]

/-- C10: for every store state, owner and clock, `getTaskStats(owner).overdue`
equals the length of `listTasks(owner, {range: 'overdue'})`: the stats
computation (raw due-date timestamp `<` today's midnight over pending
tasks) and the list computation (due date truncated to its calendar day,
strictly before today, pending only) agree on every task. -/
theorem c10_overdue_stats_agree (st : MCPStorage) (u : String) (now : Nat) :
    (getTaskStats st u now).overdue
      = (listTasks st u { range := some "overdue" } now).length := by
  have hall : ∀ t : Task, rangeKeep "all" (dayStart now) t = true := by
    intro t
    unfold rangeKeep
    cases t.due_date <;> simp
  have hperm1 := jsSort_perm cmpTask
    (listTasksFiltered st u { range := some "all" } now)
  simp only [getTaskStats, listTasks, listTasksFiltered, optFilter] at hperm1 ⊢
  simp only [if_neg (by decide : ¬ ("all" : String) = ""),
    if_neg (by decide : ¬ ("overdue" : String) = "")] at hperm1 ⊢
  rw [List.filter_eq_self.mpr (fun t _ => hall t)] at hperm1 ⊢
  set U : List Task := (mapValues st.tasksMap).filter (fun t => t.user_id = u) with hU
  rw [List.filter_filter, ← List.countP_eq_length_filter, hperm1.countP_eq,
    (jsSort_perm cmpTask (U.filter
      (fun t => rangeKeep "overdue" (dayStart now) t))).length_eq,
    ← List.countP_eq_length_filter]
  refine List.countP_congr ?_
  intro t _
  unfold rangeKeep
  cases hdd : t.due_date with
  | none => simp
  | some d => simp [dayStart_lt_iff, Bool.and_comm]

/-! ## C4: result ordering of `listTasks` -/

/-- A task with a due date (low priority) and one without (high
priority): the comparator puts the undated one first. -/
def tDatedLow : Task :=
  { id := "d", title := "dated", description := none, due_date := some 0,
    priority := "low", status := "pending", created_at := 0, updated_at := 0,
    user_id := "u", tags := [] }

def tUndatedHigh : Task :=
  { id := "n", title := "undated", description := none, due_date := none,
    priority := "high", status := "pending", created_at := 0, updated_at := 0,
    user_id := "u", tags := [] }

def stMixed : MCPStorage := { tasksMap := [("d", tDatedLow), ("n", tUndatedHigh)] }

/-- C4 counterexample: in the result of `listTasks` for a store holding a
dated low-priority task and an undated high-priority task, the *undated*
task comes first — refuting the claim that every task with a due date
appears before every task without one (a dated and an undated task are
compared by priority, not by datedness). -/
theorem c4_dated_before_undated_counterexample :
    listTasks stMixed "u" {} 0 = [tUndatedHigh, tDatedLow] ∧
    tUndatedHigh.due_date = none ∧ tDatedLow.due_date = some 0 := by
  decide

theorem jsSort_cmpTask_dated (L : List Task)
    (h : ∀ t ∈ jsSort cmpTask L, t.due_date ≠ none) :
    (jsSort cmpTask L).Pairwise (fun a b => a.due_date.getD 0 ≤ b.due_date.getD 0) := by
  have h' : ∀ t ∈ L, t.due_date ≠ none :=
    fun t ht => h t ((mem_jsSort cmpTask L t).mpr ht)
  have hs := jsSort_sorted_key cmpTask (fun t => ((t.due_date.getD 0 : Nat) : Int)) L ?_
  · exact hs.imp (by intro a b hab; exact_mod_cast hab)
  · intro a ha b hb
    rcases Option.ne_none_iff_exists.mp (h' a ha) with ⟨da, hda⟩
    rcases Option.ne_none_iff_exists.mp (h' b hb) with ⟨db, hdb⟩
    simp only [cmpTask, ← hda, ← hdb, Option.getD_some]
    omega

theorem jsSort_cmpTask_undated (L : List Task)
    (h : ∀ t ∈ jsSort cmpTask L, t.due_date = none) :
    (jsSort cmpTask L).Pairwise
      (fun a b => priorityOrder b.priority ≤ priorityOrder a.priority) := by
  have h' : ∀ t ∈ L, t.due_date = none :=
    fun t ht => h t ((mem_jsSort cmpTask L t).mpr ht)
  have hs := jsSort_sorted_key cmpTask (fun t => -(priorityOrder t.priority)) L ?_
  · exact hs.imp (by intro a b hab; omega)
  · intro a ha b hb
    simp only [cmpTask, h' a ha, h' b hb]
    omega

/-- C4 amended: the comparator orders two dated tasks ascending by due
date and two undated tasks by priority descending, but compares a dated
and an undated task by priority alone, so dated-before-undated fails in
general (see the counterexample).  What holds: when every task in the
result has a due date the result is ascending by due date, and when none
has one the result is in descending priority order. -/
theorem c4_amended_homogeneous_sorting (st : MCPStorage) (u : String)
    (filter : ListTasksFilter) (now : Nat) :
    ((∀ t ∈ listTasks st u filter now, t.due_date ≠ none) →
      (listTasks st u filter now).Pairwise
        (fun a b => a.due_date.getD 0 ≤ b.due_date.getD 0)) ∧
    ((∀ t ∈ listTasks st u filter now, t.due_date = none) →
      (listTasks st u filter now).Pairwise
        (fun a b => priorityOrder b.priority ≤ priorityOrder a.priority)) :=
  ⟨fun h => jsSort_cmpTask_dated (listTasksFiltered st u filter now) h,
   fun h => jsSort_cmpTask_undated (listTasksFiltered st u filter now) h⟩

def stAllDated : MCPStorage :=
  { tasksMap :=
      [("a", { tDatedLow with id := "a", due_date := some (2 * dayMs) }),
       ("b", { tDatedLow with id := "b", due_date := some dayMs, priority := "high" })] }

def stAllUndated : MCPStorage :=
  { tasksMap :=
      [("a", { tUndatedHigh with id := "a", priority := "low" }),
       ("b", { tUndatedHigh with id := "b", priority := "high" })] }

/-- Witness for the amended C4 at concrete all-dated and all-undated
stores. -/
theorem c4_amended_witness :
    (listTasks stAllDated "u" {} 0).Pairwise
      (fun a b => a.due_date.getD 0 ≤ b.due_date.getD 0) ∧
    (listTasks stAllUndated "u" {} 0).Pairwise
      (fun a b => priorityOrder b.priority ≤ priorityOrder a.priority) :=
  ⟨(c4_amended_homogeneous_sorting stAllDated "u" {} 0).1 (by decide),
   (c4_amended_homogeneous_sorting stAllUndated "u" {} 0).2 (by decide)⟩

/-! ## C5: the `completed` range and tasks without a due date -/

/-- C5 amended: `listTasks(owner, {range: 'completed'})` returns exactly
the owner's completed tasks *that have a due date*; a completed task with
no due date is excluded, because a task without a due date matches only
the range `'all'`. -/
theorem c5_amended_completed_range (st : MCPStorage) (u : String) (now : Nat) (t : Task) :
    t ∈ listTasks st u { range := some "completed" } now ↔
      t ∈ mapValues st.tasksMap ∧ t.user_id = u ∧ t.status = "completed" ∧
        t.due_date ≠ none := by
  unfold listTasks
  rw [mem_jsSort]
  unfold listTasksFiltered optFilter
  simp only [if_neg (by decide : ¬ ("completed" : String) = "")]
  rw [List.mem_filter, List.mem_filter]
  unfold rangeKeep
  cases hdd : t.due_date with
  | none => simp [hdd]
  | some d =>
    simp [hdd, (by decide : ¬ ("completed" : String) = "today"),
      (by decide : ¬ ("completed" : String) = "upcoming"),
      (by decide : ¬ ("completed" : String) = "overdue"),
      and_assoc]

def taskCompletedNoDue : Task :=
  { id := "c1", title := "done item", description := none, due_date := none,
    priority := "medium", status := "completed", created_at := 0, updated_at := 0,
    user_id := "u", tags := [] }

def stCompleted : MCPStorage := { tasksMap := [("c1", taskCompletedNoDue)] }

/-- C5 counterexample: a completed task of the owner with no due date is
*not* returned by `listTasks(owner, {range: 'completed'})`, refuting the
claim that the completed range ignores `due_date`. -/
theorem c5_completed_range_counterexample :
    taskCompletedNoDue.user_id = "u" ∧ taskCompletedNoDue.status = "completed" ∧
    taskCompletedNoDue ∈ mapValues stCompleted.tasksMap ∧
    listTasks stCompleted "u" { range := some "completed" } 0 = [] := by
  decide

/-! ## C6: create/get round trip -/

/-- C6: a payload accepted by `CreateTaskPayloadSchema` creates a task
that `getTask` returns under the generated id with exactly the input
fields (priority defaulting to `medium`, tags to `[]`), generated id and
timestamps and status `pending`; a rejected payload makes `createTask`
fail with a validation error, returning no new store — the store is
unchanged, so the rejected payload can never appear in a later
`listTasks` result. -/
theorem c6_create_roundtrip (st : MCPStorage) (u : String) (p : CreateTaskPayload)
    (newId : String) (now : Nat) :
    ((createPayloadParse p = .ok p) →
      ∃ t st', createTask st u p newId now = .ok (t, st') ∧
        getTask st' newId = some t ∧
        t.title = p.title ∧ t.description = p.description ∧ t.due_date = p.due_date ∧
        t.priority = p.priority.getD "medium" ∧ t.tags = p.tags.getD [] ∧
        t.status = "pending" ∧ t.created_at = now ∧ t.updated_at = now ∧
        t.id = newId ∧ t.user_id = u) ∧
    ((∃ e, createPayloadParse p = .error e) →
      ∃ e', createTask st u p newId now = .error e') := by
  constructor
  · intro hvalid
    unfold createPayloadParse at hvalid
    split_ifs at hvalid with h1 h2 h3 h4
    have hpr5 : ¬ ((!(validPriority (p.priority.getD "medium"))) = true) := by
      cases hpr : p.priority with
      | none => decide
      | some pr =>
        rw [hpr] at h4
        simpa [optBad] using h4
    have hparse : taskSchemaParse
        { id := newId, title := p.title, description := p.description,
          due_date := p.due_date, priority := p.priority.getD "medium",
          status := "pending", created_at := now, updated_at := now,
          user_id := u, tags := p.tags.getD [] }
        = .ok { id := newId, title := p.title, description := p.description,
                due_date := p.due_date, priority := p.priority.getD "medium",
                status := "pending", created_at := now, updated_at := now,
                user_id := u, tags := p.tags.getD [] } := by
      unfold taskSchemaParse
      rw [if_neg h1, if_neg h2, if_neg h3, if_neg hpr5]
      rfl
    have hcreate : createTask st u p newId now
        = .ok ({ id := newId, title := p.title, description := p.description,
                 due_date := p.due_date, priority := p.priority.getD "medium",
                 status := "pending", created_at := now, updated_at := now,
                 user_id := u, tags := p.tags.getD [] },
               { tasksMap := mapSet st.tasksMap newId
                   { id := newId, title := p.title, description := p.description,
                     due_date := p.due_date, priority := p.priority.getD "medium",
                     status := "pending", created_at := now, updated_at := now,
                     user_id := u, tags := p.tags.getD [] } }) := by
      simp only [createTask]
      rw [hparse]
    exact ⟨_, _, hcreate, mapGet_mapSet_self _ _ _, rfl, rfl, rfl, rfl, rfl, rfl, rfl,
      rfl, rfl, rfl⟩
  · rintro ⟨e, herr⟩
    unfold createPayloadParse at herr
    have hschema : ∃ e', taskSchemaParse
        { id := newId, title := p.title, description := p.description,
          due_date := p.due_date, priority := p.priority.getD "medium",
          status := "pending", created_at := now, updated_at := now,
          user_id := u, tags := p.tags.getD [] } = .error e' := by
      unfold taskSchemaParse
      split_ifs at herr with h1 h2 h3 h4
      · exact ⟨"title: too short", by rw [if_pos h1]⟩
      · exact ⟨"title: too long", by rw [if_neg h1, if_pos h2]⟩
      · exact ⟨"description: too long", by rw [if_neg h1, if_neg h2, if_pos h3]⟩
      · have hc : (!(validPriority (p.priority.getD "medium"))) = true := by
          cases hpr : p.priority with
          | none => rw [hpr] at h4; simp [optBad] at h4
          | some pr =>
            rw [hpr] at h4
            simpa [optBad] using h4
        exact ⟨"priority: invalid enum value",
          by rw [if_neg h1, if_neg h2, if_neg h3, if_pos hc]⟩
    obtain ⟨e', he'⟩ := hschema
    refine ⟨e', ?_⟩
    simp only [createTask]
    rw [he']

/-- Witness for C6 at the concrete payload `{title: "Buy milk"}` on an
empty store. -/
theorem c6_create_roundtrip_witness :
    ∃ t st',
      createTask { tasksMap := [] } "u" { title := "Buy milk" } "id1" 5 = .ok (t, st') ∧
      getTask st' "id1" = some t ∧
      t.title = "Buy milk" ∧ t.description = none ∧ t.due_date = none ∧
      t.priority = "medium" ∧ t.tags = [] ∧
      t.status = "pending" ∧ t.created_at = 5 ∧ t.updated_at = 5 ∧
      t.id = "id1" ∧ t.user_id = "u" :=
  (c6_create_roundtrip { tasksMap := [] } "u" { title := "Buy milk" } "id1" 5).1
    (by rfl)

/-! ## C1: owner scoping of the task tools -/

def aliceTask : Task :=
  { id := "t1", title := "report", description := none, due_date := none,
    priority := "medium", status := "pending", created_at := 0, updated_at := 0,
    user_id := "alice", tags := [] }

def aliceStore : MCPStorage := { tasksMap := [("t1", aliceTask)] }

def aliceTaskHacked : Task := { aliceTask with title := "changed by bob", updated_at := 9 }

/-- C1 (code bug): the `get_task`, `update_task`, `complete_task` and
`delete_task` tools pass only the model-supplied `task_id` to the store
and never consult the ambient owner, so a caller whose ambient owner is
`bob` reads, rewrites, completes and deletes a task owned by `alice` —
each call succeeds instead of failing with a not-found result. -/
theorem c1_cross_tenant_access_bug :
    get_task_exec aliceStore (some "bob") "t1"
      = .returned ({ success := true, task := some aliceTask }, aliceStore) ∧
    update_task_exec aliceStore (some "bob")
        { task_id := "t1", title := some "changed by bob" } 9
      = .returned ({ success := true,
                     message := some "Updated task: \"changed by bob\"",
                     task_id := some "t1", task := some aliceTaskHacked },
                   { tasksMap := [("t1", aliceTaskHacked)] }) ∧
    complete_task_exec aliceStore (some "bob") "t1" 9
      = .returned ({ success := true,
                     message := some "Completed task: \"report\" ✓",
                     task_id := some "t1",
                     task := some { aliceTask with status := "completed", updated_at := 9 } },
                   { tasksMap :=
                       [("t1", { aliceTask with status := "completed", updated_at := 9 })] }) ∧
    delete_task_exec aliceStore (some "bob") "t1"
      = .returned ({ success := true, message := some "Deleted task: \"report\"",
                     task_id := some "t1" }, { tasksMap := [] }) := by
  decide

/-! ## C2: tool validation failures throw instead of returning an error
result -/

/-- C2 (code bug): the payload-schema `parse` calls of `create_task`,
`update_task` and `list_tasks` run before the `try` block, so a parameter
object that passes the loose tool-parameter schema but fails the payload
schema (empty title, out-of-range enum) makes `execute` throw a
`ZodError` instead of returning a `{success:false, error}` envelope. -/
theorem c2_validation_throw_bug :
    create_task_exec { tasksMap := [] } (some "u") { title := "" } "id1" 0
      = .thrown "title: too short" ∧
    list_tasks_exec { tasksMap := [] } (some "u") { range := some "yesterday" } 0
      = .thrown "range: invalid enum value" ∧
    update_task_exec { tasksMap := [] } (some "u")
        { task_id := "t1", priority := some "urgent" } 0
      = .thrown "priority: invalid enum value" := by
  decide

/-! ## C8: the session registry is unbounded under getSession/endSession -/

def ops101 : List SessionOp := (List.range 101).map (fun i => SessionOp.get "u" (toString i))

set_option maxRecDepth 40000 in
/-- C8 counterexample: 101 `getSession` calls with distinct session ids,
starting from an empty registry, leave 101 live sessions — exceeding the
only cap in the code (100, inside the never-invoked
`cleanupOldSessions`), and no eviction happens during any
`getSession`/`endSession` sequence. -/
theorem c8_unbounded_sessions_counterexample :
    (applySessionOps { sessions := [] } ops101).sessions.length = 101 ∧ 101 > 100 := by
  constructor
  · decide
  · decide

/-- C8 amended: `getSession` never evicts (it grows the registry by at
most one and never shrinks it) and `endSession` only removes the one
addressed session, so the registry is unbounded under those operations;
the only eviction lives in `cleanupOldSessions`, which — when invoked,
which no code in the repository does — removes exactly the 50
oldest (first-inserted) sessions once more than 100 are live. -/
theorem c8_amended_registry_behavior :
    (∀ (mgr : ConversationSessionManager) (u s : String),
        mgr.sessions.length ≤ ((getSession mgr u s).2).sessions.length ∧
        ((getSession mgr u s).2).sessions.length ≤ mgr.sessions.length + 1) ∧
    (∀ (mgr : ConversationSessionManager) (u s : String),
        (endSession mgr u s).sessions.length ≤ mgr.sessions.length) ∧
    (∀ mgr : ConversationSessionManager, (mapKeys mgr.sessions).Nodup →
        (cleanupOldSessions mgr).sessions =
          if mgr.sessions.length > 100 then mgr.sessions.drop 50 else mgr.sessions) := by
  refine ⟨?_, ?_, ?_⟩
  · intro mgr u s
    cases h : mapGet mgr.sessions (sessionKey u s) with
    | some m => simp [getSession, h]
    | none =>
      have hh : mapHas mgr.sessions (sessionKey u s) = false := by
        simp [mapHas, h]
      simp [getSession, h, length_mapSet, hh]
  · intro mgr u s
    exact List.length_filter_le _ _
  · intro mgr hnd
    unfold cleanupOldSessions
    split
    · exact foldl_mapDelete_take mgr.sessions hnd 50
    · rfl

def mgrTwo : ConversationSessionManager :=
  { sessions := [("a:1", newMemory "a" "1"), ("b:2", newMemory "b" "2")] }

/-- Witness for the amended C8 at a concrete registry with duplicate-free
keys. -/
theorem c8_amended_witness :
    (cleanupOldSessions mgrTwo).sessions =
      if mgrTwo.sessions.length > 100 then mgrTwo.sessions.drop 50
      else mgrTwo.sessions :=
  c8_amended_registry_behavior.2.2 mgrTwo (by decide)

/-! ## C9: which task references the prompt context renders -/

/-- A minimal task used as a reference snapshot. -/
def refTask (n : String) : Task :=
  { id := n, title := n, description := none, due_date := none,
    priority := "medium", status := "pending", created_at := 0, updated_at := 0,
    user_id := "u", tags := [] }

/-- Six references recorded at times 1..6 for task ids "1".."6". -/
def memSixRefs : ConversationMemory :=
  (List.range 6).foldl
    (fun m i => recordTaskReference m (toString (i + 1)) (refTask (toString (i + 1)))
      "ctx" (i + 1))
    (newMemory "u" "s")

/-- Task "1" re-mentioned at time 7: `Map.set` refreshes `mentioned_at`
but keeps the entry at insertion position 1. -/
def memRementioned : ConversationMemory :=
  recordTaskReference memSixRefs "1" (refTask "1") "ctx" 7

def ref1Fresh : TaskReference :=
  { task_id := "1", task := refTask "1", context := "ctx", mentioned_at := 7 }

/-- C9 counterexample: with six recorded references where task "1" was
just re-mentioned (its `mentioned_at` = 7 is the most recent of all six),
the reference is among the five with the most recent `mentioned_at`
timestamps, yet it is *not* among the five references the context block
renders — `getContextForAgent` slices the last five in insertion order. -/
theorem c9_recent_refs_counterexample :
    memRementioned.referencedTasks.length = 6 ∧
    ref1Fresh ∈ mapValues memRementioned.referencedTasks ∧
    ((mapValues memRementioned.referencedTasks).filter
        (fun x => x.mentioned_at > ref1Fresh.mentioned_at)).length < 5 ∧
    ref1Fresh ∉ recentRefs memRementioned := by
  decide

/-- C9 amended: `getContextForAgent` renders the last 10 messages and the
last five task references in map *insertion* order; re-recording an
existing reference replaces its entry in place — refreshing
`mentioned_at` without moving it — so a just-re-mentioned old reference
can be omitted from the rendered five. -/
theorem c9_amended_insertion_order (mem : ConversationMemory) (tid : String)
    (task : Task) (ctx : String) (now : Nat)
    (h : mapHas mem.referencedTasks tid = true) :
    mapKeys ((recordTaskReference mem tid task ctx now).referencedTasks)
      = mapKeys mem.referencedTasks ∧
    mapGet ((recordTaskReference mem tid task ctx now).referencedTasks) tid
      = some { task_id := tid, task := task, context := ctx, mentioned_at := now } ∧
    recentRefs mem = takeLast 5 (mapValues mem.referencedTasks) ∧
    recentMessages mem = takeLast 10 mem.messages :=
  ⟨mapKeys_mapSet_of_has _ _ _ h, mapGet_mapSet_self _ _ _, rfl, rfl⟩

def memOneRef : ConversationMemory :=
  recordTaskReference (newMemory "u" "s") "1" (refTask "1") "ctx" 1

/-- Witness for the amended C9 at a concrete memory that already holds
the re-mentioned reference. -/
theorem c9_amended_witness :
    mapKeys ((recordTaskReference memOneRef "1" (refTask "1") "again" 9).referencedTasks)
      = mapKeys memOneRef.referencedTasks ∧
    mapGet ((recordTaskReference memOneRef "1" (refTask "1") "again" 9).referencedTasks) "1"
      = some { task_id := "1", task := refTask "1", context := "again", mentioned_at := 9 } ∧
    recentRefs memOneRef = takeLast 5 (mapValues memOneRef.referencedTasks) ∧
    recentMessages memOneRef = takeLast 10 memOneRef.messages :=
  c9_amended_insertion_order memOneRef "1" (refTask "1") "again" 9 (by decide)

end TodoApp

